import Mathlib

/-!
Shallow embedding of the incremental-sync / caching core of the
prizma-tracking-admin-portal repository, together with proofs of the
frozen claims about it.

Sources embedded here:
* src/src/utils/cacheService.ts (localStorage-backed point cache),
* src/src/components/live-map/LiveMap.tsx (hydration sort and delta merge),
* src/unnamed/part_000 (speed segmenter and color classifier),
* src/unnamed/part_001 (session statistics aggregator).

Modelling conventions:
* JavaScript millisecond timestamps are embedded as ℤ (every operation the
  code performs on them is integral); speeds, coordinates and distances are
  embedded as ℚ.
* The Haversine helper calculateDistance (identical in part_000 and
  part_001) is transcendental-valued, so the functions that consume it take
  the distance function as an explicit parameter; no claim below depends on
  the Haversine formula itself.
* localStorage is embedded as an association list of string keys to stored
  values; a stored string is either a JSON-parseable CachedSession or an
  unparseable blob (JSON.parse throwing is the only failure the code's
  try/catch blocks observe on read).
* Wall-clock reads (Date.now()) are an explicit `now` argument.
-/

/-- Raw (pre-resolution) timestamp representation carried by a point: a
native JS Date, a Firestore-style wrapper exposing toMillis, or anything
else (including a missing field). -/
inductive RawTimestamp where
  | dateVal (ms : ℤ)
  | storeTs (ms : ℤ)
  | otherTs
deriving DecidableEq

/-- One GPS sample, as used by cacheService.ts, LiveMap.tsx, part_000 and
part_001 (the declaring file src/types is not in the corpus; the fields are
those the embedded code reads, per the data-model section of the spec).
`speed` and `timestampMs` are Option to model absent fields. -/
structure LocationPoint where
  latitude : ℚ
  longitude : ℚ
  speed : Option ℚ
  timestampMs : Option ℤ
  timestamp : RawTimestamp
deriving DecidableEq

/-- JavaScript `v || fallback` on an optional number: the value unless it is
absent or 0 (falsy), else the fallback. ℤ version. -/
def jsOrZ (v : Option ℤ) (fallback : ℤ) : ℤ :=
  match v with
  | some x => if x = 0 then fallback else x
  | none => fallback

/-- JavaScript `v || fallback` on an optional number, ℚ version (used for
`loc.speed || 0`). -/
def jsOrQ (v : Option ℚ) (fallback : ℚ) : ℚ :=
  match v with
  | some x => if x = 0 then fallback else x
  | none => fallback

/-- Embeds `(t instanceof Date ? t.getTime() : (t as any)?.toMillis?.())`:
a millisecond value for a Date or a toMillis-carrying wrapper, undefined
otherwise. -/
def tsToMillis : RawTimestamp → Option ℤ
  | .dateVal ms => some ms
  | .storeTs ms => some ms
  | .otherTs => none

/-- Timestamp resolution as written in createSpeedSegments (part_000,
lines 46-49): timestampMs || (instanceof-Date ? getTime : toMillis?.()) || 0. -/
def segPointTime (p : LocationPoint) : ℤ :=
  jsOrZ p.timestampMs (jsOrZ (tsToMillis p.timestamp) 0)

/-- Timestamp resolution as written in the hydration sort comparator of
loadAllSessions (LiveMap.tsx, lines 133-139); textually the same chain as
segPointTime. -/
def sortPointTime (p : LocationPoint) : ℤ :=
  jsOrZ p.timestampMs (jsOrZ (tsToMillis p.timestamp) 0)

/-- Modelled from the spec's resolution order (Timestamp Resolver): (a) the
precomputed millisecond field if present and non-zero; (b) a native date's
millisecond representation; (c) a to-milliseconds accessor's result;
(d) otherwise 0. Spec-side definition, to be compared with the code-site
chains segPointTime and sortPointTime. -/
def resolveRaw : RawTimestamp → ℤ
  | .dateVal ms => ms
  | .storeTs ms => ms
  | .otherTs => 0

/-- Spec-side resolver, step (a) on top of resolveRaw. -/
def resolveMillisSpec (p : LocationPoint) : ℤ :=
  match p.timestampMs with
  | some v => if v ≠ 0 then v else resolveRaw p.timestamp
  | none => resolveRaw p.timestamp

lemma segPointTime_eq_resolve (p : LocationPoint) :
    segPointTime p = resolveMillisSpec p := by
  rcases p with ⟨lat, lon, sp, tms, ts⟩
  rcases tms with _ | v <;> rcases ts with ms | ms | _ <;>
    simp only [segPointTime, resolveMillisSpec, jsOrZ, tsToMillis, resolveRaw] <;>
    split_ifs <;> simp_all

lemma sortPointTime_eq_resolve (p : LocationPoint) :
    sortPointTime p = resolveMillisSpec p := by
  have h : sortPointTime p = segPointTime p := rfl
  rw [h, segPointTime_eq_resolve]

/-- C7: at every resolution site (the segmenter of part_000 and the
hydration sort of LiveMap.tsx) the resolved timestamp of a point follows
the spec's order: the precomputed millisecond field when present and
non-zero, else a native date's milliseconds, else a to-milliseconds
accessor's result, else 0. -/
theorem C7_timestamp_resolution_order (p : LocationPoint) :
    segPointTime p = resolveMillisSpec p ∧ sortPointTime p = resolveMillisSpec p :=
  ⟨segPointTime_eq_resolve p, sortPointTime_eq_resolve p⟩

/-- Persisted unit of cacheService.ts (interface CachedSession). -/
structure CachedSession where
  sessionId : String
  points : List LocationPoint
  lastTimestamp : ℤ
  cachedAt : ℤ
  version : String
deriving DecidableEq

/-- A string stored in localStorage, as the cache code can observe it:
either it JSON-parses to a CachedSession or JSON.parse throws on it. -/
inductive StoredValue where
  | validEntry (data : CachedSession)
  | corruptEntry
deriving DecidableEq

/-- localStorage embedded as an association list (first binding wins). -/
abbrev Store := List (String × StoredValue)

/-- Schema version tag CACHE_VERSION = 'v1' of cacheService.ts. -/
def CACHE_VERSION : String := "v1"

/-- Retention window MAX_CACHE_AGE_MS = 24 * 60 * 60 * 1000 ms (24 hours). -/
def MAX_CACHE_AGE_MS : ℤ := 24 * 60 * 60 * 1000

/-- Storage key for a session: the cache key head 'prizma_cache_' followed
by the session id. -/
def cacheKey (sessionId : String) : String := "prizma_cache_" ++ sessionId

/-- Whether a localStorage key carries the cache key head (the
key.startsWith check of clearOldCaches / clearAllCaches). -/
def isCacheKey (key : String) : Bool := "prizma_cache_".data.isPrefixOf key.data

/-- localStorage.getItem. -/
def getItem : Store → String → Option StoredValue
  | [], _ => none
  | (k, v) :: rest, key => if k = key then some v else getItem rest key

/-- localStorage.removeItem. -/
def removeItem : Store → String → Store
  | [], _ => []
  | (k, v) :: rest, key =>
    if k = key then removeItem rest key else (k, v) :: removeItem rest key

/-- localStorage.setItem: replaces any binding of the key. -/
def setItem (store : Store) (key : String) (v : StoredValue) : Store :=
  removeItem store key ++ [(key, v)]

/-- cacheService.saveSessionPoints: stamps lastTimestamp from the last
point's timestampMs field (falling back to Date.now(), also when the list
is empty), cachedAt = Date.now(), the current schema version, and persists
under the session's key. The storage-quota catch branch cannot fire in
this model, in which setItem always succeeds. -/
def saveSessionPoints (store : Store) (now : ℤ) (sessionId : String)
    (points : List LocationPoint) : Store :=
  let lastTimestamp : ℤ :=
    match points.getLast? with
    | some p => jsOrZ p.timestampMs now
    | none => now
  setItem store (cacheKey sessionId)
    (.validEntry ⟨sessionId, points, lastTimestamp, now, CACHE_VERSION⟩)

/-- cacheService.loadSessionPoints: returns the stored points and cursor,
or none when the key is absent, the stored string is unparseable (the
catch branch), the version tag mismatches (entry evicted) or the entry is
older than the retention window (entry evicted). Returns the possibly
modified store alongside the result. -/
def loadSessionPoints (store : Store) (now : ℤ) (sessionId : String) :
    Option (List LocationPoint × ℤ) × Store :=
  match getItem store (cacheKey sessionId) with
  | none => (none, store)
  | some .corruptEntry => (none, store)
  | some (.validEntry data) =>
    if data.version ≠ CACHE_VERSION then
      (none, removeItem store (cacheKey sessionId))
    else if now - data.cachedAt > MAX_CACHE_AGE_MS then
      (none, removeItem store (cacheKey sessionId))
    else
      (some (data.points, data.lastTimestamp), store)

/-- cacheService.appendPoints: load, then save either newPoints alone (on a
cache miss) or the concatenation of the cached points with newPoints. -/
def appendPoints (store : Store) (now : ℤ) (sessionId : String)
    (newPoints : List LocationPoint) : Store :=
  match loadSessionPoints store now sessionId with
  | (none, store1) => saveSessionPoints store1 now sessionId newPoints
  | (some cached, store1) => saveSessionPoints store1 now sessionId (cached.1 ++ newPoints)

/-- cacheService.clearOldCaches: walks the stored keys; a key carrying the
cache key head is removed when its entry is unparseable (the inner catch
branch) or older than the retention window; every other binding is kept. -/
def clearOldCaches : Store → ℤ → Store
  | [], _ => []
  | (k, v) :: rest, now =>
    if isCacheKey k then
      match v with
      | .corruptEntry => clearOldCaches rest now
      | .validEntry data =>
        if now - data.cachedAt > MAX_CACHE_AGE_MS then clearOldCaches rest now
        else (k, v) :: clearOldCaches rest now
    else (k, v) :: clearOldCaches rest now

lemma removeItem_idem (store : Store) (key : String) :
    removeItem (removeItem store key) key = removeItem store key := by
  induction store with
  | nil => rfl
  | cons kv rest ih =>
    rcases kv with ⟨k, v⟩
    by_cases hk : k = key <;> simp [removeItem, hk, ih]

lemma getItem_removeItem_self (store : Store) (key : String) :
    getItem (removeItem store key) key = none := by
  induction store with
  | nil => rfl
  | cons kv rest ih =>
    rcases kv with ⟨k, v⟩
    by_cases hk : k = key <;> simp [removeItem, getItem, hk, ih]

lemma getItem_append_of_none {store1 : Store} {key : String}
    (h : getItem store1 key = none) (store2 : Store) :
    getItem (store1 ++ store2) key = getItem store2 key := by
  induction store1 with
  | nil => rfl
  | cons kv rest ih =>
    rcases kv with ⟨k, v⟩
    by_cases hk : k = key
    · simp [getItem, hk] at h
    · simp [getItem, hk] at h ⊢
      exact ih h

lemma getItem_setItem_self (store : Store) (key : String) (v : StoredValue) :
    getItem (setItem store key v) key = some v := by
  unfold setItem
  rw [getItem_append_of_none (getItem_removeItem_self store key)]
  simp [getItem]

lemma getItem_eq_none_of_not_mem {store : Store} {k : String}
    (h : k ∉ store.map Prod.fst) : getItem store k = none := by
  induction store with
  | nil => rfl
  | cons kv rest ih =>
    rcases kv with ⟨k0, v0⟩
    simp only [List.map_cons, List.mem_cons] at h
    push_neg at h
    simp [getItem, Ne.symm h.1, ih h.2]

/-- C2 (amended): save(sid, pts) immediately followed by load(sid) returns
exactly pts together with a lastTimestamp equal to the last point's
precomputed millisecond field when that field is present and non-zero, and
equal to the wall-clock time of the save otherwise (in particular the raw
timestamp representation is never consulted); the store is not modified by
the load. -/
theorem C2_cache_round_trip (store : Store) (now : ℤ) (sessionId : String)
    (pts : List LocationPoint) :
    loadSessionPoints (saveSessionPoints store now sessionId pts) now sessionId =
      (some (pts, match pts.getLast? with
                  | some p => jsOrZ p.timestampMs now
                  | none => now),
       saveSessionPoints store now sessionId pts) := by
  simp only [loadSessionPoints, saveSessionPoints, getItem_setItem_self]
  simp [MAX_CACHE_AGE_MS]

/-- Concrete point whose timestampMs field is absent but whose raw
timestamp is a native date of 5000 ms: resolvable per the spec's chain,
yet saveSessionPoints ignores the raw representation. -/
def datePoint : LocationPoint := ⟨0, 0, none, none, .dateVal 5000⟩

/-- C2 counterexample: for pts = [datePoint] (non-empty, and resolvable to
5000 ms by the spec's resolution chain) saved at wall-clock 99999, the
round trip returns lastTimestamp 99999, not the resolved timestamp 5000 of
the last point — refuting the claim as stated. -/
theorem C2_counterexample :
    (loadSessionPoints (saveSessionPoints [] 99999 "s" [datePoint]) 99999 "s").1 =
      some ([datePoint], 99999) ∧
    resolveMillisSpec datePoint = 5000 ∧ (99999 : ℤ) ≠ 5000 := by
  refine ⟨by decide, rfl, by decide⟩

/-- C4: loadSessionPoints returns absent exactly when no entry is stored,
the entry is unparseable (nothing removed), the version tag mismatches
(entry removed) or the entry is older than the 24-hour window (entry
removed); otherwise it returns the stored points and lastTimestamp with
the store untouched. The embedding is a total function, reflecting that
every failure path of the source is caught before the caller sees it. -/
theorem C4_load_absence_characterization (store : Store) (now : ℤ)
    (sessionId : String) :
    ((loadSessionPoints store now sessionId).1 = none ↔
      getItem store (cacheKey sessionId) = none ∨
      getItem store (cacheKey sessionId) = some .corruptEntry ∨
      (∃ d, getItem store (cacheKey sessionId) = some (.validEntry d) ∧
        (d.version ≠ CACHE_VERSION ∨ now - d.cachedAt > MAX_CACHE_AGE_MS))) ∧
    (getItem store (cacheKey sessionId) = none →
      loadSessionPoints store now sessionId = (none, store)) ∧
    (getItem store (cacheKey sessionId) = some .corruptEntry →
      loadSessionPoints store now sessionId = (none, store)) ∧
    (∀ d, getItem store (cacheKey sessionId) = some (.validEntry d) →
      d.version ≠ CACHE_VERSION →
      loadSessionPoints store now sessionId =
        (none, removeItem store (cacheKey sessionId))) ∧
    (∀ d, getItem store (cacheKey sessionId) = some (.validEntry d) →
      d.version = CACHE_VERSION → now - d.cachedAt > MAX_CACHE_AGE_MS →
      loadSessionPoints store now sessionId =
        (none, removeItem store (cacheKey sessionId))) ∧
    (∀ d, getItem store (cacheKey sessionId) = some (.validEntry d) →
      d.version = CACHE_VERSION → ¬ now - d.cachedAt > MAX_CACHE_AGE_MS →
      loadSessionPoints store now sessionId =
        (some (d.points, d.lastTimestamp), store)) := by
  unfold loadSessionPoints
  rcases hg : getItem store (cacheKey sessionId) with _ | v
  · simp [hg]
  · rcases v with d | _
    · by_cases hv : d.version = CACHE_VERSION
      · by_cases ha : now - d.cachedAt > MAX_CACHE_AGE_MS
        · simp only [hg, hv, ha]
          refine ⟨by simp [hv, ha], by simp, by simp, ?_, ?_, ?_⟩
          · intro d2 hd2
            simp at hd2
            simp [← hd2, hv]
          · intro d2 hd2
            simp at hd2
            simp [← hd2, hv, ha]
          · intro d2 hd2
            simp at hd2
            simp [← hd2, ha]
        · simp only [hg, hv, ha]
          refine ⟨by simp [hv, ha], by simp, by simp, ?_, ?_, ?_⟩
          · intro d2 hd2
            simp at hd2
            simp [← hd2, hv]
          · intro d2 hd2
            simp at hd2
            simp [← hd2, ha]
          · intro d2 hd2
            simp at hd2
            simp [← hd2, hv, ha]
      · simp only [hg, hv]
        refine ⟨by simp [hv], by simp, by simp, ?_, ?_, ?_⟩
        · intro d2 hd2
          simp at hd2
          simp [← hd2, hv]
        · intro d2 hd2
          simp at hd2
          simp [← hd2, hv]
        · intro d2 hd2
          simp at hd2
          simp [← hd2, hv]
    · simp [hg]

lemma saveSessionPoints_removeItem (store : Store) (now : ℤ) (sid : String)
    (pts : List LocationPoint) :
    saveSessionPoints (removeItem store (cacheKey sid)) now sid pts =
      saveSessionPoints store now sid pts := by
  simp [saveSessionPoints, setItem, removeItem_idem]

/-- C5: appendPoints on an absent cache (including the absences produced by
eviction inside the internal load) leaves the store in exactly the state
saveSessionPoints would; on a present cache the persisted sequence is
exactly the cached points followed by newPoints, with no deduplication. -/
theorem C5_append_save_equivalence (store : Store) (now : ℤ) (sid : String)
    (newPts : List LocationPoint) :
    ((loadSessionPoints store now sid).1 = none →
      appendPoints store now sid newPts = saveSessionPoints store now sid newPts) ∧
    (∀ P ts, (loadSessionPoints store now sid).1 = some (P, ts) →
      ∃ d, getItem (appendPoints store now sid newPts) (cacheKey sid) =
          some (.validEntry d) ∧ d.points = P ++ newPts) := by
  rcases hg : getItem store (cacheKey sid) with _ | v
  · have hload : loadSessionPoints store now sid = (none, store) := by
      simp [loadSessionPoints, hg]
    constructor
    · intro _
      simp [appendPoints, hload]
    · intro P ts hPts
      rw [hload] at hPts
      simp at hPts
  · rcases v with d | _
    · by_cases hv : d.version = CACHE_VERSION
      · by_cases ha : now - d.cachedAt > MAX_CACHE_AGE_MS
        · have hload : loadSessionPoints store now sid =
              (none, removeItem store (cacheKey sid)) := by
            simp [loadSessionPoints, hg, hv, ha]
          constructor
          · intro _
            simp [appendPoints, hload, saveSessionPoints_removeItem]
          · intro P ts hPts
            rw [hload] at hPts
            simp at hPts
        · have hload : loadSessionPoints store now sid =
              (some (d.points, d.lastTimestamp), store) := by
            simp [loadSessionPoints, hg, hv, ha]
          constructor
          · intro hnone
            rw [hload] at hnone
            simp at hnone
          · intro P ts hPts
            rw [hload] at hPts
            simp only [Option.some.injEq, Prod.mk.injEq] at hPts
            have happ : appendPoints store now sid newPts =
                saveSessionPoints store now sid (d.points ++ newPts) := by
              simp [appendPoints, hload]
            rw [happ, hPts.1]
            simp only [saveSessionPoints]
            exact ⟨_, getItem_setItem_self _ _ _, rfl⟩
      · have hload : loadSessionPoints store now sid =
            (none, removeItem store (cacheKey sid)) := by
          simp [loadSessionPoints, hg, hv]
        constructor
        · intro _
          simp [appendPoints, hload, saveSessionPoints_removeItem]
        · intro P ts hPts
          rw [hload] at hPts
          simp at hPts
    · have hload : loadSessionPoints store now sid = (none, store) := by
        simp [loadSessionPoints, hg]
      constructor
      · intro _
        simp [appendPoints, hload]
      · intro P ts hPts
        rw [hload] at hPts
        simp at hPts

/-- C10: when the stored entry for the session is stale — version mismatch
or age beyond the 24-hour window — appendPoints silently evicts it via the
internal load and persists exactly newPoints: the previously cached points
are discarded, and the model's append (like the source's void return)
reports nothing to the caller. -/
theorem C10_append_discards_stale_entry (store : Store) (now : ℤ) (sid : String)
    (newPts : List LocationPoint) (d : CachedSession)
    (hg : getItem store (cacheKey sid) = some (.validEntry d))
    (hstale : d.version ≠ CACHE_VERSION ∨ now - d.cachedAt > MAX_CACHE_AGE_MS) :
    appendPoints store now sid newPts =
      saveSessionPoints (removeItem store (cacheKey sid)) now sid newPts ∧
    ∃ c, getItem (appendPoints store now sid newPts) (cacheKey sid) =
        some (.validEntry c) ∧ c.points = newPts := by
  have hload : loadSessionPoints store now sid =
      (none, removeItem store (cacheKey sid)) := by
    rcases hstale with h | h
    · simp [loadSessionPoints, hg, h]
    · by_cases hv : d.version = CACHE_VERSION
      · simp [loadSessionPoints, hg, hv, h]
      · simp [loadSessionPoints, hg, hv]
  have happ : appendPoints store now sid newPts =
      saveSessionPoints (removeItem store (cacheKey sid)) now sid newPts := by
    simp [appendPoints, hload]
  refine ⟨happ, ?_⟩
  rw [happ]
  simp only [saveSessionPoints]
  exact ⟨_, getItem_setItem_self _ _ _, rfl⟩

/-- C9 (amended): on a store whose keys are distinct, clearOldCaches
removes exactly the prefixed entries that are expired (age over the
24-hour window) TOGETHER WITH the prefixed entries that are unparseable
(removed by the inner catch branch); every parseable, non-expired prefixed
entry and every binding outside the prefix is left unchanged. The
embedding is total: no failure escapes to the caller. -/
theorem C9_clearExpired_characterization (store : Store) (now : ℤ)
    (hnd : (store.map Prod.fst).Nodup) (k : String) :
    getItem (clearOldCaches store now) k =
      match getItem store k with
      | none => none
      | some .corruptEntry => if isCacheKey k then none else some .corruptEntry
      | some (.validEntry d) =>
        if isCacheKey k ∧ now - d.cachedAt > MAX_CACHE_AGE_MS then none
        else some (.validEntry d) := by
  induction store with
  | nil => simp [clearOldCaches, getItem]
  | cons kv rest ih =>
    rcases kv with ⟨k0, v0⟩
    simp only [List.map_cons, List.nodup_cons] at hnd
    have ih2 := ih hnd.2
    by_cases hck : isCacheKey k0
    · rcases v0 with d | _
      · by_cases ha : now - d.cachedAt > MAX_CACHE_AGE_MS
        · by_cases hk : k0 = k
          · subst hk
            have hrest : getItem rest k0 = none :=
              getItem_eq_none_of_not_mem hnd.1
            simp [clearOldCaches, getItem, hck, ha, ih2, hrest]
          · simp [clearOldCaches, getItem, hck, ha, ih2, hk]
        · by_cases hk : k0 = k
          · subst hk
            simp [clearOldCaches, getItem, hck, ha]
          · simp [clearOldCaches, getItem, hck, ha, ih2, hk]
      · by_cases hk : k0 = k
        · subst hk
          have hrest : getItem rest k0 = none :=
            getItem_eq_none_of_not_mem hnd.1
          simp [clearOldCaches, getItem, hck, ih2, hrest]
        · simp [clearOldCaches, getItem, hck, ih2, hk]
    · by_cases hk : k0 = k
      · subst hk
        rcases v0 with d | _ <;> simp [clearOldCaches, getItem, hck]
      · simp [clearOldCaches, getItem, hck, ih2, hk]

/-- C9 counterexample: a prefixed entry that is unparseable — hence not an
entry whose age exceeds the 24-hour window — is nonetheless removed by
clearOldCaches (the inner catch branch removes it), refuting the claim
that only age-expired cache entries are removed. -/
theorem C9_counterexample :
    getItem [(cacheKey "s", StoredValue.corruptEntry)] (cacheKey "s") =
      some .corruptEntry ∧
    clearOldCaches [(cacheKey "s", StoredValue.corruptEntry)] 0 = [] := by
  constructor
  · decide
  · decide

/-- In-memory per-session state of LiveMap: the point sequence held in
sessionsWithLocations plus the cursor held in lastTimestampsRef. -/
structure SessionView where
  locations : List LocationPoint
  cursor : ℤ
deriving DecidableEq

/-- The in-memory merge step of loadNewPointsForSession (LiveMap.tsx,
lines 173-214): an empty snapshot is a no-op; otherwise the fetched points
are appended to the point sequence and the cursor becomes
newPoints[newPoints.length - 1].timestampMs || Date.now(). -/
def mergeNewPoints (view : SessionView) (newPoints : List LocationPoint)
    (now : ℤ) : SessionView :=
  match newPoints.getLast? with
  | none => view
  | some lastP => ⟨view.locations ++ newPoints, jsOrZ lastP.timestampMs now⟩

/-- The full-fetch hydration sort of loadAllSessions (LiveMap.tsx,
lines 133-139): locations.sort by the resolved-time comparator. -/
def hydrateLocations (fetched : List LocationPoint) : List LocationPoint :=
  fetched.mergeSort (fun a b => sortPointTime a ≤ sortPointTime b)

lemma mem_of_getLastEq {α : Type} {l : List α} {x : α}
    (hx : l.getLast? = some x) : x ∈ l := by
  obtain ⟨h, hr⟩ := List.mem_getLast?_eq_getLast (l := l) (x := x) hx
  rw [hr]
  exact List.getLast_mem h

lemma pairwise_le_getLast {l : List LocationPoint}
    (hp : l.Pairwise (fun a b => resolveMillisSpec a ≤ resolveMillisSpec b))
    {x : LocationPoint} (hx : l.getLast? = some x) :
    ∀ a ∈ l, resolveMillisSpec a ≤ resolveMillisSpec x := by
  induction l with
  | nil => simp at hx
  | cons b t ih =>
    rcases t with _ | ⟨c, t2⟩
    · simp at hx
      subst hx
      intro a ha
      simp at ha
      subst ha
      exact le_refl _
    · rw [List.getLast?_cons_cons] at hx
      intro a ha
      rcases List.mem_cons.mp ha with rfl | hat
      · exact List.rel_of_pairwise_cons hp (mem_of_getLastEq hx)
      · exact ih hp.of_cons hx a hat

lemma hydrate_pairwise (fetched : List LocationPoint) :
    (hydrateLocations fetched).Pairwise
      (fun a b => resolveMillisSpec a ≤ resolveMillisSpec b) := by
  have h := @List.sorted_mergeSort LocationPoint
      (fun a b : LocationPoint => decide (sortPointTime a ≤ sortPointTime b))
      (fun a b c hab hbc => by
        simp only [decide_eq_true_eq] at *
        exact le_trans hab hbc)
      (fun a b => by
        simp only [Bool.or_eq_true, decide_eq_true_eq]
        exact le_total _ _)
      fetched
  refine h.imp ?_
  intro a b hab
  simp only [decide_eq_true_eq] at hab
  rw [sortPointTime_eq_resolve a, sortPointTime_eq_resolve b] at hab
  exact hab

lemma merge_pairwise {view : SessionView} {newPoints : List LocationPoint}
    {now T : ℤ} (hT : 0 ≤ T)
    (holdsorted : view.locations.Pairwise
      (fun a b => resolveMillisSpec a ≤ resolveMillisSpec b))
    (hold : ∀ p ∈ view.locations, resolveMillisSpec p ≤ T)
    (hnew : ∀ p ∈ newPoints, ∃ v, p.timestampMs = some v ∧ T < v)
    (hsorted : newPoints.Pairwise
      (fun a b => resolveMillisSpec a ≤ resolveMillisSpec b)) :
    (mergeNewPoints view newPoints now).locations.Pairwise
      (fun a b => resolveMillisSpec a ≤ resolveMillisSpec b) := by
  rcases hgl : newPoints.getLast? with _ | lastP
  · simp [mergeNewPoints, hgl]
    exact holdsorted
  · simp only [mergeNewPoints, hgl]
    refine List.pairwise_append.mpr ⟨holdsorted, hsorted, ?_⟩
    intro a ha b hb
    obtain ⟨v, hv, hTv⟩ := hnew b hb
    have hv0 : v ≠ 0 := by omega
    have hres : resolveMillisSpec b = v := by
      simp [resolveMillisSpec, hv, hv0]
    have := hold a ha
    omega

/-- C3: point sequences are monotonically non-decreasing in resolved
timestamp after every merge the engine performs: the full-fetch hydration
sort always yields a sorted sequence, and a delta append preserves
sortedness whenever the in-memory sequence is sorted with resolved
timestamps at most the cursor and the fetched points carry timestampMs
values strictly above the (non-negative) cursor, in ascending order —
exactly what the strictly-greater-than filter and ascending order-by of
the delta query deliver. -/
theorem C3_monotone_after_merge :
    (∀ fetched : List LocationPoint,
      (hydrateLocations fetched).Pairwise
        (fun a b => resolveMillisSpec a ≤ resolveMillisSpec b)) ∧
    (∀ (view : SessionView) (newPoints : List LocationPoint) (now T : ℤ),
      view.cursor = T → 0 ≤ T →
      view.locations.Pairwise
        (fun a b => resolveMillisSpec a ≤ resolveMillisSpec b) →
      (∀ p ∈ view.locations, resolveMillisSpec p ≤ T) →
      (∀ p ∈ newPoints, ∃ v, p.timestampMs = some v ∧ T < v) →
      newPoints.Pairwise
        (fun a b => resolveMillisSpec a ≤ resolveMillisSpec b) →
      (mergeNewPoints view newPoints now).locations.Pairwise
        (fun a b => resolveMillisSpec a ≤ resolveMillisSpec b)) := by
  refine ⟨hydrate_pairwise, ?_⟩
  intro view newPoints now T _ hT holdsorted hold hnew hsorted
  exact merge_pairwise hT holdsorted hold hnew hsorted

/-- C1: when the in-memory sequence has N points, all with resolved
timestamp at most the (non-negative) cursor T, and a poll fetch returns a
non-empty ascending sequence of points each carrying a timestampMs
strictly greater than T, the merge appends them all — the new count is
N + K — and the cursor advances to the maximum resolved timestamp over the
merged point set (it is attained on a merged point and bounds them all). -/
theorem C1_delta_merge_count_and_cursor (view : SessionView)
    (newPoints : List LocationPoint) (now T : ℤ)
    (_hcur : view.cursor = T) (hT : 0 ≤ T)
    (hold : ∀ p ∈ view.locations, resolveMillisSpec p ≤ T)
    (hne : newPoints ≠ [])
    (hnew : ∀ p ∈ newPoints, ∃ v, p.timestampMs = some v ∧ T < v)
    (hsorted : newPoints.Pairwise
      (fun a b => resolveMillisSpec a ≤ resolveMillisSpec b)) :
    (mergeNewPoints view newPoints now).locations.length
        = view.locations.length + newPoints.length ∧
    (mergeNewPoints view newPoints now).cursor ∈
        (mergeNewPoints view newPoints now).locations.map resolveMillisSpec ∧
    ∀ x ∈ (mergeNewPoints view newPoints now).locations.map resolveMillisSpec,
        x ≤ (mergeNewPoints view newPoints now).cursor := by
  have hgl : newPoints.getLast? = some (newPoints.getLast hne) :=
    List.getLast?_eq_getLast_of_ne_nil hne
  set lastP := newPoints.getLast hne with hlastP
  have hmerge : mergeNewPoints view newPoints now =
      ⟨view.locations ++ newPoints, jsOrZ lastP.timestampMs now⟩ := by
    simp [mergeNewPoints, hgl]
  have hmem : lastP ∈ newPoints := mem_of_getLastEq hgl
  obtain ⟨v, hv, hTv⟩ := hnew lastP hmem
  have hv0 : v ≠ 0 := by omega
  have hres : resolveMillisSpec lastP = v := by
    simp [resolveMillisSpec, hv, hv0]
  have hcursor : jsOrZ lastP.timestampMs now = v := by
    simp [jsOrZ, hv, hv0]
  refine ⟨by simp [hmerge], ?_, ?_⟩
  · rw [hmerge]
    simp only [hcursor, ← hres]
    exact List.mem_map_of_mem _ (List.mem_append_right _ hmem)
  · intro x hx
    rw [hmerge] at hx ⊢
    simp only [hcursor]
    simp only [List.map_append, List.mem_append, List.mem_map] at hx
    rcases hx with ⟨p, hp, rfl⟩ | ⟨p, hp, rfl⟩
    · have := hold p hp
      omega
    · have hple := pairwise_le_getLast hsorted hgl p hp
      rw [hres] at hple
      exact hple

/-- One colored polyline segment (interface SpeedSegment of part_000):
the pair of coordinates, the assigned color and the speed in km/h. -/
structure SpeedSegment where
  positions : (ℚ × ℚ) × (ℚ × ℚ)
  color : String
  speedKmh : ℚ
deriving DecidableEq

/-- getColorForSpeed of part_000: fixed ascending speed buckets. -/
def getColorForSpeed (speedKmh : ℚ) : String :=
  if speedKmh < 5 then "#10B981"
  else if speedKmh < 20 then "#3B82F6"
  else if speedKmh < 50 then "#F59E0B"
  else if speedKmh < 80 then "#F97316"
  else "#EF4444"

/-- Loop body of createSpeedSegments over consecutive pairs. `dist` stands
for the Haversine helper calculateDistance of part_000 (transcendental,
hence a parameter). A pair with time delta ≤ 0 seconds is skipped (the
`continue`); otherwise one segment is pushed. -/
def speedSegLoop (dist : ℚ → ℚ → ℚ → ℚ → ℚ) : List LocationPoint → List SpeedSegment
  | loc1 :: loc2 :: rest =>
    let d := dist loc1.latitude loc1.longitude loc2.latitude loc2.longitude
    let timeDiff : ℚ := ((segPointTime loc2 - segPointTime loc1 : ℤ) : ℚ) / 1000
    if timeDiff ≤ 0 then speedSegLoop dist (loc2 :: rest)
    else
      let speedKmh := d / timeDiff * 3.6
      ⟨((loc1.latitude, loc1.longitude), (loc2.latitude, loc2.longitude)),
        getColorForSpeed speedKmh, speedKmh⟩ :: speedSegLoop dist (loc2 :: rest)
  | _ => []

/-- createSpeedSegments of part_000: empty for fewer than two points, else
the loop over consecutive pairs. -/
def createSpeedSegments (dist : ℚ → ℚ → ℚ → ℚ → ℚ)
    (locations : List LocationPoint) : List SpeedSegment :=
  if locations.length < 2 then [] else speedSegLoop dist locations

/-- Spec-side description of one consecutive pair: exactly one segment when
the resolved time delta is strictly positive — with speed distance/Δt (m/s)
converted to km/h and that speed's color class — and no segment otherwise. -/
def segmentOfPair (dist : ℚ → ℚ → ℚ → ℚ → ℚ) (a b : LocationPoint) :
    Option SpeedSegment :=
  let dt : ℚ := ((resolveMillisSpec b - resolveMillisSpec a : ℤ) : ℚ) / 1000
  if 0 < dt then
    let v := dist a.latitude a.longitude b.latitude b.longitude / dt * 3.6
    some ⟨((a.latitude, a.longitude), (b.latitude, b.longitude)),
      getColorForSpeed v, v⟩
  else none

/-- Spec-side segmenter: the filterMap of segmentOfPair over the
consecutive pairs of the input. -/
def segmentsSpec (dist : ℚ → ℚ → ℚ → ℚ → ℚ)
    (locs : List LocationPoint) : List SpeedSegment :=
  (locs.zip locs.tail).filterMap (fun ab => segmentOfPair dist ab.1 ab.2)

lemma speedSegLoop_eq_spec (dist : ℚ → ℚ → ℚ → ℚ → ℚ) :
    ∀ locs : List LocationPoint, speedSegLoop dist locs = segmentsSpec dist locs
  | [] => rfl
  | [a] => rfl
  | a :: b :: rest => by
    have ih := speedSegLoop_eq_spec dist (b :: rest)
    simp only [speedSegLoop, segmentsSpec, List.tail_cons, List.zip_cons_cons,
      List.filterMap_cons]
    rw [segPointTime_eq_resolve a, segPointTime_eq_resolve b]
    have hiff : ((((resolveMillisSpec b - resolveMillisSpec a : ℤ) : ℚ) / 1000) ≤ 0)
        ↔ ¬ (0 < (((resolveMillisSpec b - resolveMillisSpec a : ℤ) : ℚ) / 1000)) := by
      constructor
      · intro h
        exact not_lt.mpr h
      · intro h
        exact not_lt.mp h
    by_cases hdt : (((resolveMillisSpec b - resolveMillisSpec a : ℤ) : ℚ) / 1000) ≤ 0
    · rw [if_pos hdt]
      rw [segmentsSpec] at ih
      rw [ih]
      simp only [segmentOfPair]
      rw [if_neg (hiff.mp hdt)]
      simp
    · rw [if_neg hdt]
      rw [segmentsSpec] at ih
      rw [ih]
      simp only [segmentOfPair]
      rw [if_pos (not_le.mp hdt)]
      simp

/-- C6: the segmenter emits exactly one segment — the pair's coordinates,
the speed distance/Δt converted to km/h, and that speed's color class —
for each consecutive pair whose resolved time delta is strictly positive,
and no segment for a pair with Δt ≤ 0 (so every divisor used is strictly
positive); every input of length < 2 yields the empty sequence. -/
theorem C6_segmenter_characterization (dist : ℚ → ℚ → ℚ → ℚ → ℚ)
    (locs : List LocationPoint) :
    createSpeedSegments dist locs = segmentsSpec dist locs ∧
    (locs.length < 2 → createSpeedSegments dist locs = []) := by
  constructor
  · rcases locs with _ | ⟨a, _ | ⟨b, rest⟩⟩
    · rfl
    · rfl
    · have h2 : ¬ (a :: b :: rest).length < 2 := by
        simp [List.length_cons]
      rw [createSpeedSegments, if_neg h2]
      exact speedSegLoop_eq_spec dist (a :: b :: rest)
  · intro hlen
    rw [createSpeedSegments, if_pos hlen]

/-- Aggregate statistics record (interface SessionStats of part_001).
Speeds are m/s with km/h companions; duration is whole seconds. -/
structure SessionStats where
  totalDistance : ℚ
  totalDistanceKm : ℚ
  averageSpeed : ℚ
  averageSpeedKmh : ℚ
  maxSpeed : ℚ
  maxSpeedKmh : ℚ
  duration : ℤ
  durationFormatted : String
deriving DecidableEq

/-- Total-distance loop of calculateSessionStats: distances of consecutive
pairs accumulated over the whole ordered sequence, with no time-delta
filtering (the loop body is reassociated into plain recursion; rational
addition is associative and commutative). -/
def statsDistLoop (dist : ℚ → ℚ → ℚ → ℚ → ℚ) : List LocationPoint → ℚ
  | a :: b :: rest =>
    dist a.latitude a.longitude b.latitude b.longitude + statsDistLoop dist (b :: rest)
  | _ => 0

/-- Math.max over a list, as reached by the code only on non-empty input
(the empty case returns 0 here; the source returns early before Math.max
can see an empty array). -/
def listMax : List ℚ → ℚ
  | [] => 0
  | x :: xs => xs.foldl max x

/-- calculateSessionStats of part_001. `dist` stands for its local
Haversine helper calculateDistance; start and end times are epoch ms, the
absent end falling back to Date.now() (the `now` argument). Math.floor of
a real quotient is Int.fdiv; the JS remainder operator on integers is
Int.tmod. -/
def calculateSessionStats (dist : ℚ → ℚ → ℚ → ℚ → ℚ)
    (locations : List LocationPoint) (startTime : ℤ) (endTime : Option ℤ)
    (now : ℤ) : SessionStats :=
  match locations with
  | [] => ⟨0, 0, 0, 0, 0, 0, 0, "0m"⟩
  | _ :: _ =>
    let totalDistance := statsDistLoop dist locations
    let speeds := locations.map (fun loc => jsOrQ loc.speed 0)
    let averageSpeed := speeds.foldl (· + ·) 0 / (speeds.length : ℚ)
    let maxSpeed := listMax speeds
    let endv : ℤ := match endTime with | some e => e | none => now
    let duration : ℤ := Int.fdiv (endv - startTime) 1000
    let hours : ℤ := Int.fdiv duration 3600
    let minutes : ℤ := Int.fdiv (Int.tmod duration 3600) 60
    let durationFormatted : String :=
      if 0 < hours then toString hours ++ "h " ++ toString minutes ++ "m"
      else toString minutes ++ "m"
    ⟨totalDistance, totalDistance / 1000, averageSpeed, averageSpeed * 3.6,
      maxSpeed, maxSpeed * 3.6, duration, durationFormatted⟩

/-- Spec-side total distance: the sum of pairwise distances over the
consecutive pairs of the full ordered sequence. -/
def pairDistancesSpec (dist : ℚ → ℚ → ℚ → ℚ → ℚ)
    (locs : List LocationPoint) : ℚ :=
  ((locs.zip locs.tail).map
    (fun ab => dist ab.1.latitude ab.1.longitude ab.2.latitude ab.2.longitude)).sum

/-- Self-reported speed sequence of a point list (`loc.speed || 0`). -/
def speedsOf (locs : List LocationPoint) : List ℚ :=
  locs.map (fun p => jsOrQ p.speed 0)

/-- Spec-side average speed: the arithmetic mean of the self-reported
speeds. -/
def meanSpeedSpec (locs : List LocationPoint) : ℚ :=
  (speedsOf locs).sum / (locs.length : ℚ)

lemma statsDistLoop_eq_spec (dist : ℚ → ℚ → ℚ → ℚ → ℚ) :
    ∀ locs : List LocationPoint, statsDistLoop dist locs = pairDistancesSpec dist locs
  | [] => rfl
  | [a] => by simp [statsDistLoop, pairDistancesSpec]
  | a :: b :: rest => by
    have ih := statsDistLoop_eq_spec dist (b :: rest)
    simp only [statsDistLoop, pairDistancesSpec, List.tail_cons, List.zip_cons_cons,
      List.map_cons, List.sum_cons] at ih ⊢
    rw [ih]

lemma foldl_add_eq_sum (l : List ℚ) : ∀ a : ℚ, l.foldl (· + ·) a = a + l.sum := by
  induction l with
  | nil => intro a; simp
  | cons x xs ih =>
    intro a
    simp only [List.foldl_cons, List.sum_cons, ih (a + x)]
    ring

lemma foldl_max_le (xs : List ℚ) (a : ℚ) :
    a ≤ xs.foldl max a ∧ (∀ x ∈ xs, x ≤ xs.foldl max a) ∧
    (xs.foldl max a = a ∨ xs.foldl max a ∈ xs) := by
  induction xs generalizing a with
  | nil => simp
  | cons y ys ih =>
    obtain ⟨h1, h2, h3⟩ := ih (max a y)
    simp only [List.foldl_cons]
    refine ⟨le_trans (le_max_left a y) h1, ?_, ?_⟩
    · intro x hx
      rcases List.mem_cons.mp hx with rfl | hxs
      · exact le_trans (le_max_right a x) h1
      · exact h2 x hxs
    · rcases h3 with he | hm
      · rw [he]
        rcases max_choice a y with hma | hmy
        · left; exact hma
        · right; rw [hmy]; exact List.mem_cons_self y ys
      · right; exact List.mem_cons_of_mem _ hm

lemma listMax_spec {l : List ℚ} (hl : l ≠ []) :
    listMax l ∈ l ∧ ∀ x ∈ l, x ≤ listMax l := by
  rcases l with _ | ⟨x, xs⟩
  · exact absurd rfl hl
  · obtain ⟨h1, h2, h3⟩ := foldl_max_le xs x
    constructor
    · rcases h3 with he | hm
      · show xs.foldl max x ∈ x :: xs
        rw [he]
        exact List.mem_cons_self _ _
      · exact List.mem_cons_of_mem _ hm
    · intro y hy
      rcases List.mem_cons.mp hy with rfl | hys
      · exact h1
      · exact h2 y hys

/-- Distance function that returns 1000 m for every pair of coordinates:
embodies the claim's "two points 1000 m apart" without committing to the
transcendental Haversine value. -/
def sampleDist : ℚ → ℚ → ℚ → ℚ → ℚ := fun _ _ _ _ => 1000

/-- First sample point: self-reported speed 0 m/s, timestamp 1000 ms. -/
def samplePointA : LocationPoint := ⟨0, 0, some 0, some 1000, .otherTs⟩

/-- Second sample point: self-reported speed 10 m/s, 100 s after the
first. -/
def samplePointB : LocationPoint := ⟨0, 1, some 10, some 101000, .otherTs⟩

lemma stats_totalDistance (dist : ℚ → ℚ → ℚ → ℚ → ℚ) (x : LocationPoint)
    (xs : List LocationPoint) (st : ℤ) (et : Option ℤ) (now : ℤ) :
    (calculateSessionStats dist (x :: xs) st et now).totalDistance
      = statsDistLoop dist (x :: xs) := rfl

lemma stats_totalDistanceKm (dist : ℚ → ℚ → ℚ → ℚ → ℚ) (x : LocationPoint)
    (xs : List LocationPoint) (st : ℤ) (et : Option ℤ) (now : ℤ) :
    (calculateSessionStats dist (x :: xs) st et now).totalDistanceKm
      = statsDistLoop dist (x :: xs) / 1000 := rfl

lemma stats_averageSpeed (dist : ℚ → ℚ → ℚ → ℚ → ℚ) (x : LocationPoint)
    (xs : List LocationPoint) (st : ℤ) (et : Option ℤ) (now : ℤ) :
    (calculateSessionStats dist (x :: xs) st et now).averageSpeed
      = (speedsOf (x :: xs)).foldl (· + ·) 0 / ((speedsOf (x :: xs)).length : ℚ) := rfl

lemma stats_averageSpeedKmh (dist : ℚ → ℚ → ℚ → ℚ → ℚ) (x : LocationPoint)
    (xs : List LocationPoint) (st : ℤ) (et : Option ℤ) (now : ℤ) :
    (calculateSessionStats dist (x :: xs) st et now).averageSpeedKmh
      = (speedsOf (x :: xs)).foldl (· + ·) 0 / ((speedsOf (x :: xs)).length : ℚ) * 3.6 := rfl

lemma stats_maxSpeed (dist : ℚ → ℚ → ℚ → ℚ → ℚ) (x : LocationPoint)
    (xs : List LocationPoint) (st : ℤ) (et : Option ℤ) (now : ℤ) :
    (calculateSessionStats dist (x :: xs) st et now).maxSpeed
      = listMax (speedsOf (x :: xs)) := rfl

lemma stats_maxSpeedKmh (dist : ℚ → ℚ → ℚ → ℚ → ℚ) (x : LocationPoint)
    (xs : List LocationPoint) (st : ℤ) (et : Option ℤ) (now : ℤ) :
    (calculateSessionStats dist (x :: xs) st et now).maxSpeedKmh
      = listMax (speedsOf (x :: xs)) * 3.6 := rfl

/-- C8: the aggregator returns all-zero stats with duration label 0m on the
empty sequence; on a non-empty sequence the total distance is the sum of
pairwise distances over all consecutive pairs (independent of time deltas),
the average speed is the arithmetic mean of the self-reported speeds and
the max speed their maximum; and on the two sample points 1000 m apart with
speeds 0 and 10 m/s, averageSpeedKmh = 18, maxSpeedKmh = 36 and
totalDistanceKm = 1. -/
theorem C8_aggregate_stats (dist : ℚ → ℚ → ℚ → ℚ → ℚ) (startTime : ℤ)
    (endTime : Option ℤ) (now : ℤ) :
    calculateSessionStats dist [] startTime endTime now =
      ⟨0, 0, 0, 0, 0, 0, 0, "0m"⟩ ∧
    (∀ locs : List LocationPoint, locs ≠ [] →
      (calculateSessionStats dist locs startTime endTime now).totalDistance
        = pairDistancesSpec dist locs ∧
      (calculateSessionStats dist locs startTime endTime now).totalDistanceKm
        = pairDistancesSpec dist locs / 1000 ∧
      (calculateSessionStats dist locs startTime endTime now).averageSpeed
        = meanSpeedSpec locs ∧
      (calculateSessionStats dist locs startTime endTime now).averageSpeedKmh
        = meanSpeedSpec locs * 3.6 ∧
      (calculateSessionStats dist locs startTime endTime now).maxSpeed
        ∈ speedsOf locs ∧
      (∀ s ∈ speedsOf locs,
        s ≤ (calculateSessionStats dist locs startTime endTime now).maxSpeed) ∧
      (calculateSessionStats dist locs startTime endTime now).maxSpeedKmh
        = (calculateSessionStats dist locs startTime endTime now).maxSpeed * 3.6) ∧
    ((calculateSessionStats sampleDist [samplePointA, samplePointB]
        0 (some 100000) 0).averageSpeedKmh = 18 ∧
     (calculateSessionStats sampleDist [samplePointA, samplePointB]
        0 (some 100000) 0).maxSpeedKmh = 36 ∧
     (calculateSessionStats sampleDist [samplePointA, samplePointB]
        0 (some 100000) 0).totalDistanceKm = 1) := by
  refine ⟨rfl, ?_, ?_⟩
  · intro locs hlocs
    rcases locs with _ | ⟨x, xs⟩
    · exact absurd rfl hlocs
    · have hmax := listMax_spec (show speedsOf (x :: xs) ≠ [] by simp [speedsOf])
      refine ⟨?_, ?_, ?_, ?_, ?_, ?_, ?_⟩
      · rw [stats_totalDistance]
        exact statsDistLoop_eq_spec dist (x :: xs)
      · rw [stats_totalDistanceKm, statsDistLoop_eq_spec]
      · rw [stats_averageSpeed, foldl_add_eq_sum]
        simp [meanSpeedSpec, speedsOf]
      · rw [stats_averageSpeedKmh, foldl_add_eq_sum]
        simp [meanSpeedSpec, speedsOf]
      · rw [stats_maxSpeed]
        exact hmax.1
      · intro s hs
        rw [stats_maxSpeed]
        exact hmax.2 s hs
      · rw [stats_maxSpeedKmh, stats_maxSpeed]
  · refine ⟨?_, ?_, ?_⟩
    · rw [stats_averageSpeedKmh]
      norm_num [speedsOf, samplePointA, samplePointB, jsOrQ]
    · rw [stats_maxSpeedKmh]
      norm_num [speedsOf, samplePointA, samplePointB, jsOrQ, listMax]
    · rw [stats_totalDistanceKm]
      norm_num [statsDistLoop, sampleDist]

/-- Concrete point with timestampMs 5, used as witness input. -/
def wPoint5 : LocationPoint := ⟨0, 0, none, some 5, .otherTs⟩

/-- Concrete empty in-memory session view with cursor 0. -/
def wView : SessionView := ⟨[], 0⟩

/-- Concrete cache entry with the current version, cursor 5 and
cachedAt 0 — expired by the time now = 100000000. -/
def wStale : CachedSession := ⟨"s", [], 5, 0, "v1"⟩

/-- Concrete one-entry store holding wStale. -/
def wStore : Store := [(cacheKey "s", .validEntry wStale)]

theorem C1_witness :
    wView.cursor = 0 ∧ ((0 : ℤ) ≤ 0) ∧ ([wPoint5] : List LocationPoint) ≠ [] ∧
    ((mergeNewPoints wView [wPoint5] 100).locations.length
        = wView.locations.length + [wPoint5].length ∧
     (mergeNewPoints wView [wPoint5] 100).cursor ∈
        (mergeNewPoints wView [wPoint5] 100).locations.map resolveMillisSpec ∧
     ∀ x ∈ (mergeNewPoints wView [wPoint5] 100).locations.map resolveMillisSpec,
        x ≤ (mergeNewPoints wView [wPoint5] 100).cursor) :=
  ⟨rfl, le_refl 0, by decide,
   C1_delta_merge_count_and_cursor wView [wPoint5] 100 0 rfl (le_refl 0)
     (by simp [wView])
     (by decide)
     (fun p hp => by
       simp only [List.mem_singleton] at hp
       subst hp
       exact ⟨5, rfl, by decide⟩)
     (by simp)⟩

theorem C3_witness :
    (mergeNewPoints wView [wPoint5] 100).locations.Pairwise
      (fun a b => resolveMillisSpec a ≤ resolveMillisSpec b) :=
  C3_monotone_after_merge.2 wView [wPoint5] 100 0 rfl (le_refl 0)
    (by simp [wView])
    (by simp [wView])
    (fun p hp => by
      simp only [List.mem_singleton] at hp
      subst hp
      exact ⟨5, rfl, by decide⟩)
    (by simp)

theorem C4_witness :
    getItem wStore (cacheKey "s") = some (.validEntry wStale) ∧
    (100000000 : ℤ) - wStale.cachedAt > MAX_CACHE_AGE_MS ∧
    loadSessionPoints wStore 100000000 "s" =
      (none, removeItem wStore (cacheKey "s")) :=
  ⟨by decide, by decide,
   (C4_load_absence_characterization wStore 100000000 "s").2.2.2.2.1 wStale
     (by decide) rfl (by decide)⟩

theorem C5_witness :
    (loadSessionPoints [] 0 "s").1 = none ∧
    appendPoints [] 0 "s" [wPoint5] = saveSessionPoints [] 0 "s" [wPoint5] :=
  ⟨rfl, (C5_append_save_equivalence [] 0 "s" [wPoint5]).1 rfl⟩

theorem C6_witness :
    createSpeedSegments (fun _ _ _ _ => 0) [wPoint5]
        = segmentsSpec (fun _ _ _ _ => 0) [wPoint5] ∧
    createSpeedSegments (fun _ _ _ _ => 0) [wPoint5] = [] :=
  ⟨(C6_segmenter_characterization (fun _ _ _ _ => 0) [wPoint5]).1,
   (C6_segmenter_characterization (fun _ _ _ _ => 0) [wPoint5]).2 (by decide)⟩

theorem C8_witness :
    ([wPoint5] : List LocationPoint) ≠ [] ∧
    ((calculateSessionStats sampleDist [wPoint5] 0 none 0).totalDistance
        = pairDistancesSpec sampleDist [wPoint5] ∧
     (calculateSessionStats sampleDist [wPoint5] 0 none 0).totalDistanceKm
        = pairDistancesSpec sampleDist [wPoint5] / 1000 ∧
     (calculateSessionStats sampleDist [wPoint5] 0 none 0).averageSpeed
        = meanSpeedSpec [wPoint5] ∧
     (calculateSessionStats sampleDist [wPoint5] 0 none 0).averageSpeedKmh
        = meanSpeedSpec [wPoint5] * 3.6 ∧
     (calculateSessionStats sampleDist [wPoint5] 0 none 0).maxSpeed
        ∈ speedsOf [wPoint5] ∧
     (∀ s ∈ speedsOf [wPoint5],
        s ≤ (calculateSessionStats sampleDist [wPoint5] 0 none 0).maxSpeed) ∧
     (calculateSessionStats sampleDist [wPoint5] 0 none 0).maxSpeedKmh
        = (calculateSessionStats sampleDist [wPoint5] 0 none 0).maxSpeed * 3.6) :=
  ⟨by decide, (C8_aggregate_stats sampleDist 0 none 0).2.1 [wPoint5] (by decide)⟩

theorem C9_witness :
    (wStore.map Prod.fst).Nodup ∧
    getItem (clearOldCaches wStore 100000000) (cacheKey "s") =
      (match getItem wStore (cacheKey "s") with
       | none => none
       | some .corruptEntry =>
         if isCacheKey (cacheKey "s") then none else some .corruptEntry
       | some (.validEntry d) =>
         if isCacheKey (cacheKey "s") ∧ (100000000 : ℤ) - d.cachedAt > MAX_CACHE_AGE_MS
         then none else some (.validEntry d)) :=
  ⟨by decide,
   C9_clearExpired_characterization wStore 100000000 (by decide) (cacheKey "s")⟩

theorem C10_witness :
    getItem wStore (cacheKey "s") = some (.validEntry wStale) ∧
    ((100000000 : ℤ) - wStale.cachedAt > MAX_CACHE_AGE_MS) ∧
    (appendPoints wStore 100000000 "s" [wPoint5] =
      saveSessionPoints (removeItem wStore (cacheKey "s")) 100000000 "s" [wPoint5] ∧
     ∃ c, getItem (appendPoints wStore 100000000 "s" [wPoint5]) (cacheKey "s") =
        some (.validEntry c) ∧ c.points = [wPoint5]) :=
  ⟨by decide, by decide,
   C10_append_discards_stale_entry wStore 100000000 "s" [wPoint5] wStale
     (by decide) (Or.inr (by decide))⟩
